import Mathlib

/-!
Shallow embedding of the core logic of `src/app_vistoriador.py` (VELOX
inspections production panel): the revistoria (repeat-inspection)
classifier, the monthly quota reconciliation arithmetic, and the
consecutive-months-below-quota streak walk.
-/

/-- Embeds `_upper_strip` (`str(x).upper().strip()`): uppercase every
character, then trim surrounding whitespace.  Implemented on the
character list so that it evaluates by kernel reduction. -/
def upperStrip (s : String) : String :=
  ⟨(((s.data.map Char.toUpper).dropWhile Char.isWhitespace).reverse.dropWhile
      Char.isWhitespace).reverse⟩

/-- Codepoint-lexicographic order on character lists, the order Python
uses to compare the strings pandas sorts by. -/
def charsLE : List Char → List Char → Bool
  | [], _ => true
  | _ :: _, [] => false
  | a :: as, b :: bs =>
    if a.toNat = b.toNat then charsLE as bs else decide (a.toNat < b.toNat)

/-- Order on strings: codepoint-lexicographic on their characters. -/
def strLE (a b : String) : Bool := charsLE a.data b.data

/-- One inspection record after column resolution: `UNIDADE`, parsed
`__DATA__` (`none` models `NaT` from `parse_date_any`), `CHASSI`, and the
resolved `VISTORIADOR`.  Dates are encoded as `yyyymmdd` naturals, which
is order-isomorphic to the calendar dates the code sorts by. -/
structure Rec where
  unidade : String
  data : Option Nat
  chassi : String
  vistoriador : String
deriving DecidableEq

/-- Lines 183-184 of the source: `UNIDADE` and `CHASSI` are upper-stripped
before sorting and classification. -/
def normalizeRec (r : Rec) : Rec :=
  { r with unidade := upperStrip r.unidade, chassi := upperStrip r.chassi }

/-- Ordering of parsed dates as pandas sorts them: valid dates ascending,
`NaT` (`none`) after every valid date (`na_position` defaults to `last`). -/
def optDateLE : Option Nat → Option Nat → Bool
  | none, none => true
  | none, some _ => false
  | some _, none => true
  | some a, some b => decide (a ≤ b)

/-- The key used by `data.sort_values(["__DATA__", col_chas])`: lexicographic
on (date, chassis). -/
def recLE (a b : Rec) : Bool :=
  if a.data = b.data then strLE a.chassi b.chassi else optDateLE a.data b.data

/-- Ordered insertion for a stable insertion sort: an element is placed
before the first existing element it compares `le` to, hence elements that
compare equal keep their input order. -/
def ordInsert (le : α → α → Bool) (a : α) : List α → List α
  | [] => [a]
  | b :: l => if le a b then a :: b :: l else b :: ordInsert le a l

/-- Stable sort (models `kind="mergesort"`, whose only observable contract
here is sortedness plus stability). -/
def sortBy (le : α → α → Bool) (l : List α) : List α := l.foldr (ordInsert le) []

/-- Counter update used while replaying `groupby(col_chas).cumcount()`. -/
def bumpCnt (cnt : String → Nat) (key : String) : String → Nat :=
  fun c => if c = key then cnt c + 1 else cnt c

/-- Replays `data.groupby(col_chas).cumcount()`: each record is paired with
the number of earlier records (in the given order) sharing its chassis. -/
def cumcountFrom (cnt : String → Nat) : List Rec → List (Rec × Nat)
  | [] => []
  | r :: rs => (r, cnt r.chassi) :: cumcountFrom (bumpCnt cnt r.chassi) rs

/-- Line 202: `IS_REV = (__ORD__ >= 1)`. -/
def flagPair (p : Rec × Nat) : Rec × Bool := (p.1, decide (1 ≤ p.2))

/-- Lines 200-202: normalize, stable-sort by (date, chassis), cumulative
count per chassis, flag repeats. -/
def classify (rows : List Rec) : List (Rec × Bool) :=
  (cumcountFrom (fun _ => 0) (sortBy recLE (rows.map normalizeRec))).map flagPair

/-- Line 205: the sentinel unit values dropped from the data. -/
def BAN_UNIDS : List String :=
  ["POSTO CÓDIGO", "POSTO CODIGO", "CÓDIGO", "CODIGO", "", "—", "NAN"]

/-- Lines 200-206 of `read_one_sheet`: classification runs first, and only
then are rows with banned units removed. -/
def readOneSheet (rows : List Rec) : List (Rec × Bool) :=
  (classify rows).filter (fun p => !(BAN_UNIDS.contains p.1.unidade))

/-- The list `[s, s+1, ..., s+n-1]`, used to describe cumulative counts. -/
def natRange : Nat → Nat → List Nat
  | _, 0 => []
  | s, n + 1 => s :: natRange (s + 1) n

/-- Per-inspector gross count (`VISTORIAS=("IS_REV", "size")`, line 513). -/
def aggVistorias (out : List (Rec × Bool)) (v : String) : Nat :=
  (out.filter (fun p => decide (p.1.vistoriador = v))).length

/-- Per-inspector repeat count (`REVISTORIAS=("IS_REV", "sum")`, line 514). -/
def aggRevistorias (out : List (Rec × Bool)) (v : String) : Nat :=
  (out.filter (fun p => decide (p.1.vistoriador = v))).countP (fun p => p.2)

/-- Line 520: `LIQUIDO = VISTORIAS - REVISTORIAS` per inspector. -/
def aggLiquido (out : List (Rec × Bool)) (v : String) : Int :=
  (aggVistorias out v : Int) - (aggRevistorias out v : Int)

/-- One row of the `grp` reconciliation table after the metas merge
(lines 510-565): production aggregates plus quota columns. -/
structure GrpRow where
  vistoriador : String
  vistorias : Nat
  revistorias : Nat
  diasPassados : Nat
  unidade : String
  tipo : String
  metaMensal : Int
  diasUteis : Int
deriving DecidableEq

/-- Line 520: net production of a reconciliation row. -/
def LIQUIDO (g : GrpRow) : Int := (g.vistorias : Int) - (g.revistorias : Int)

/-- Round-half-to-even on rationals, the rounding used by
`Series.round(0)` (numpy bankers rounding) at line 573. -/
def roundHalfEven (q : ℚ) : Int :=
  if q - ⌊q⌋ < 1 / 2 then ⌊q⌋
  else if 1 / 2 < q - ⌊q⌋ then ⌊q⌋ + 1
  else if 2 ∣ ⌊q⌋ then ⌊q⌋ else ⌊q⌋ + 1

/-- Line 568: `META_DIA = META_MENSAL / DIAS_UTEIS` when `DIAS_UTEIS > 0`,
else `0`. -/
def META_DIA (g : GrpRow) : ℚ :=
  if 0 < g.diasUteis then (g.metaMensal : ℚ) / (g.diasUteis : ℚ) else 0

/-- Line 569: `FALTANTE_MES = max(META_MENSAL - LIQUIDO, 0)`. -/
def FALTANTE_MES (g : GrpRow) : Int := max (g.metaMensal - LIQUIDO g) 0

/-- Line 570: `DIAS_RESTANTES = max(DIAS_UTEIS - DIAS_PASSADOS, 0)`. -/
def DIAS_RESTANTES (g : GrpRow) : Int :=
  max (g.diasUteis - (g.diasPassados : Int)) 0

/-- Line 571: `NECESSIDADE_DIA = FALTANTE_MES / DIAS_RESTANTES` when
`DIAS_RESTANTES > 0`, else `0`. -/
def NECESSIDADE_DIA (g : GrpRow) : ℚ :=
  if 0 < DIAS_RESTANTES g then (FALTANTE_MES g : ℚ) / (DIAS_RESTANTES g : ℚ) else 0

/-- Line 572: `MEDIA_DIA_ATUAL = LIQUIDO / DIAS_PASSADOS` when
`DIAS_PASSADOS > 0`, else `0`. -/
def MEDIA_DIA_ATUAL (g : GrpRow) : ℚ :=
  if 0 < g.diasPassados then (LIQUIDO g : ℚ) / (g.diasPassados : ℚ) else 0

/-- Line 573: `PROJECAO_MES = round(LIQUIDO + MEDIA_DIA_ATUAL * DIAS_RESTANTES)`. -/
def PROJECAO_MES (g : GrpRow) : Int :=
  roundHalfEven ((LIQUIDO g : ℚ) + MEDIA_DIA_ATUAL g * (DIAS_RESTANTES g : ℚ))

/-- Line 574: `TENDENCIA_% = PROJECAO_MES / META_MENSAL * 100` when
`META_MENSAL > 0`, else NaN; NaN is modelled as `none`. -/
def TENDENCIA (g : GrpRow) : Option ℚ :=
  if 0 < g.metaMensal then some ((PROJECAO_MES g : ℚ) / (g.metaMensal : ℚ) * 100) else none

/-- Lines 596-602, `chip_tend`: the NaN sentinel renders as an em dash,
otherwise the percentage is formatted (with `%.0f` half-even rounding) and
decorated. -/
def chip_tend (p : Option ℚ) : String :=
  match p with
  | none => "—"
  | some p =>
    if 100 ≤ p then toString (roundHalfEven p) ++ "% 🚀"
    else if 95 ≤ p then toString (roundHalfEven p) ++ "% 💪"
    else if 85 ≤ p then toString (roundHalfEven p) ++ "% 😬"
    else toString (roundHalfEven p) ++ "% 😟"

/-- A production aggregate row before the metas merge (lines 510-538):
per-inspector gross, repeats and distinct workdays with records. -/
structure GrpBase where
  vistoriador : String
  vistorias : Nat
  revistorias : Nat
  diasPassados : Nat
deriving DecidableEq

/-- One row of the month's quota table `metas_ref` (lines 215-233):
inspector, unit, type, monthly quota, working days. -/
structure MetaRef where
  vistoriador : String
  unidade : String
  tipo : String
  metaMensal : Int
  diasUteis : Int
deriving DecidableEq

/-- The quota rows matching one aggregate row, in table order. -/
def metasFor (g : GrpBase) (metas : List MetaRef) : List MetaRef :=
  metas.filter (fun m => decide (m.vistoriador = g.vistoriador))

/-- Lines 552-554 and 561-565: `grp.merge(metas_ref, on="VISTORIADOR",
how="left")` followed by `fillna(0)` on the numeric quota columns.  A left
merge emits one output row per matching quota row, or a single
defaulted row when no quota row matches. -/
def mergeLeft (g : GrpBase) (metas : List MetaRef) : List GrpRow :=
  match metasFor g metas with
  | [] => [⟨g.vistoriador, g.vistorias, g.revistorias, g.diasPassados, "", "", 0, 0⟩]
  | m :: ms =>
    (m :: ms).map fun m =>
      ⟨g.vistoriador, g.vistorias, g.revistorias, g.diasPassados,
        m.unidade, m.tipo, m.metaMensal, m.diasUteis⟩

/-- One row of the per-inspector monthly history `hist` (lines 674-708):
month key `"YYYY-MM"`, net production and consolidated monthly quota. -/
structure HistRow where
  ym : String
  liquido : Int
  metaMensal : Int
deriving DecidableEq

/-- Decimal-digit parse of a character list, as Python `int(...)`
accepts a slice made of digits (and raises otherwise, modelled `none`). -/
def parseNatAux : List Char → Nat → Option Nat
  | [], acc => some acc
  | c :: cs, acc =>
    if c.isDigit then parseNatAux cs (acc * 10 + (c.toNat - 48)) else none

/-- Parse of a non-empty all-digit character list. -/
def parseNat (l : List Char) : Option Nat :=
  match l with
  | [] => none
  | _ => parseNatAux l 0

/-- Embeds `_ym_key` (lines 656-662): chronological sort key of a
`"YYYY-MM"` string, `-1` when the slices do not parse. -/
def ymKey (ym : String) : Int :=
  match parseNat (ym.data.take 4), parseNat ((ym.data.drop 5).take 2) with
  | some y, some m => (y : Int) * 100 + (m : Int)
  | _, _ => -1

/-- Embeds `_ym_to_label` (lines 649-654): `"YYYY-MM"` to `"MM/YYYY"`. -/
def ymToLabel (ym : String) : String := (ym.drop 5).take 2 ++ "/" ++ ym.take 4

/-- Embeds `_status_row` (lines 712-720). -/
def statusRow (liq meta : Int) : String :=
  if meta ≤ 0 then "SEM META" else if meta ≤ liq then "BATEU" else "NÃO BATEU"

/-- Month ordering used by `sort_values("__YM__", key=_ym_key)`. -/
def histLE (a b : HistRow) : Bool := decide (ymKey a.ym ≤ ymKey b.ym)

/-- The backward walk of `_consecutive_without_meta` (lines 749-758),
applied to the reverse-chronological list of rows from the reference
month backwards: break on a month without positive quota, break on a met
month, otherwise count the month and remember it as the new earliest
month of the run. -/
def countBack : List HistRow → Nat × Option String
  | [] => (0, none)
  | r :: rs =>
    if r.metaMensal ≤ 0 then (0, none)
    else if statusRow r.liquido r.metaMensal ≠ "NÃO BATEU" then (0, none)
    else
      let p := countBack rs
      (p.1 + 1, some (p.2.getD r.ym))

/-- Embeds `_consecutive_without_meta` (lines 731-759): sort the
inspector's history chronologically, locate the first row of the
reference month, and walk backwards from it. -/
def consecutiveWithoutMeta (rows : List HistRow) (ymRef : String) :
    Nat × Option String :=
  let s := sortBy histLE rows
  match s.findIdx? (fun r => decide (r.ym = ymRef)) with
  | none => (0, none)
  | some idx => countBack ((s.take (idx + 1)).reverse)

/-- Specification-level streak count over a reverse-chronological
history, following the words of the spec: stop at a month without a
positive quota or with net at or above quota, otherwise count. -/
def specStreak : List HistRow → Nat
  | [] => 0
  | r :: rs =>
    if r.metaMensal ≤ 0 ∨ r.metaMensal ≤ r.liquido then 0 else specStreak rs + 1

/-- One raw row of the consolidated quota table `df_metas_all`
(TIPO already upper-stripped, META_MENSAL already numeric). -/
structure MetaRaw where
  ym : String
  vistoriador : String
  tipo : String
  metaMensal : Int
deriving DecidableEq

/-- The duplicate quota rows of one `(month, inspector)` key, in input
order (pandas groupby preserves the order of rows inside a group). -/
def metasGroup (rows : List MetaRaw) (ym v : String) : List MetaRaw :=
  rows.filter (fun r => decide (r.ym = ym) && decide (r.vistoriador = v))

/-- Maximum `META_MENSAL` over a non-empty group, as the `"max"`
aggregation computes it. -/
def groupMax (r : MetaRaw) (rs : List MetaRaw) : Int :=
  rs.foldl (fun a x => max a x.metaMensal) r.metaMensal

/-- Lines 696-703: the aggregation applied to one `(month, inspector)`
group: `TIPO` is the first value of the group (after `astype(str)` no
nulls remain, so `dropna` removes nothing and `iloc[0]` is the first
row, empty strings included) and `META_MENSAL` is the group maximum. -/
def consolidateFor (rows : List MetaRaw) (ym v : String) : Option (String × Int) :=
  match metasGroup rows ym v with
  | [] => none
  | r :: rs => some (r.tipo, groupMax r rs)

/-- Lines 696-703 as a whole-table operation: one output row per
distinct `(month, inspector)` key. -/
def consolidate (rows : List MetaRaw) :
    List (String × String × String × Int) :=
  ((rows.map (fun r => (r.ym, r.vistoriador))).dedup).filterMap
    (fun k => (consolidateFor rows k.1 k.2).map (fun p => (k.1, k.2, p.1, p.2)))

/-- Whether a record carries a valid (parseable) date. -/
def isValid (r : Rec) : Bool := r.data.isSome

/-- The chassis counter state after consuming a list of records. -/
def postCnt (cnt : String → Nat) : List Rec → (String → Nat)
  | [] => cnt
  | r :: l => postCnt (bumpCnt cnt r.chassi) l

/-- Concrete scenario A of the spec: chassis `ABC123` inspected on
2024-01-05, 2024-01-03 and 2024-01-07 at the same unit. -/
def scenA : List Rec :=
  [⟨"U1", some 20240105, "ABC123", "V"⟩,
   ⟨"U1", some 20240103, "ABC123", "V"⟩,
   ⟨"U1", some 20240107, "ABC123", "V"⟩]

/-- Two records with the same chassis and the same date at different
units, in input order: exhibits the stable tie-break. -/
def scenTie : List Rec :=
  [⟨"UA", some 20240110, "TIE111", "V1"⟩,
   ⟨"UB", some 20240110, "TIE111", "V2"⟩]

/-- The same chassis appearing under two different units in the same
month (the input refuting the (unit, chassis) scope key of C2). -/
def scenTwoUnits : List Rec :=
  [⟨"U1", some 20240101, "CHS77", "V"⟩,
   ⟨"U2", some 20240102, "CHS77", "V"⟩]

/-- A banned-unit record followed by a retained record with the same
chassis: the pair refuting the upstream-exclusion consequence of C3. -/
def scenBanPair : List Rec :=
  [⟨"CODIGO", some 20240101, "CHX9", "V"⟩,
   ⟨"U1", some 20240102, "CHX9", "V"⟩]

/-- A single record whose date failed to parse (`NaT`). -/
def scenNoDate : Rec := ⟨"U1", none, "CHD5", "V"⟩

/-- A second banned-unit/retained pair, used by the amended form of C3. -/
def scenBanPair2 : List Rec :=
  [⟨"POSTO CÓDIGO", some 20240201, "CHY4", "V"⟩,
   ⟨"U9", some 20240202, "CHY4", "V"⟩]

/-- Scenario D of the spec, in scrambled input order: inspector missed
the quota in 2024-03, 2024-04 and 2024-05 and met it in 2024-02. -/
def scenD : List HistRow :=
  [⟨"2024-05", 30, 50⟩, ⟨"2024-02", 60, 50⟩, ⟨"2024-04", 20, 50⟩, ⟨"2024-03", 10, 50⟩]

/-- A row with `DIAS_UTEIS = 0` but three elapsed workdays and net 6:
its average daily net is 2, not 0. -/
def grpNoWd : GrpRow := ⟨"A", 6, 0, 3, "", "", 0, 0⟩

/-- Reconciliation rows identical except for net production (5 vs 6):
the concrete monotonicity witness. -/
def grpW1 : GrpRow := ⟨"W", 5, 0, 5, "U", "FIXO", 100, 20⟩

/-- Same row as `grpW1` with one more gross inspection. -/
def grpW2 : GrpRow := ⟨"W", 6, 0, 5, "U", "FIXO", 100, 20⟩

/-- A production aggregate with no quota row matching its inspector. -/
def gbNoMeta : GrpBase := ⟨"ZZ", 10, 2, 5⟩

/-- An aggregate for inspector `A`, whose name matches two quota rows. -/
def gbDup : GrpBase := ⟨"A", 10, 2, 5⟩

/-- Two quota rows for the same inspector name at different units. -/
def metasDup : List MetaRef :=
  [⟨"A", "U1", "FIXO", 100, 20⟩, ⟨"A", "U2", "FIXO", 200, 20⟩]

/-- Duplicate quota rows for one `(month, inspector)` key whose first
`TIPO` is empty and second is `FIXO`. -/
def metasRawDup : List MetaRaw :=
  [⟨"2024-05", "A", "", 100⟩, ⟨"2024-05", "A", "FIXO", 200⟩]

theorem charsLE_total : ∀ xs ys : List Char, charsLE xs ys = true ∨ charsLE ys xs = true
  | [], _ => Or.inl rfl
  | _ :: _, [] => Or.inr rfl
  | a :: as, b :: bs => by
    simp only [charsLE]
    by_cases h : a.toNat = b.toNat
    · rw [if_pos h, if_pos h.symm]
      exact charsLE_total as bs
    · rw [if_neg h, if_neg (fun hh => h hh.symm)]
      rcases Nat.lt_trichotomy a.toNat b.toNat with hlt | heq | hgt
      · exact Or.inl (decide_eq_true hlt)
      · exact absurd heq h
      · exact Or.inr (decide_eq_true hgt)

theorem charsLE_trans :
    ∀ (xs ys zs : List Char), charsLE xs ys = true → charsLE ys zs = true →
      charsLE xs zs = true
  | [], _, _, _, _ => rfl
  | _ :: _, [], _, h, _ => by simp [charsLE] at h
  | _ :: _, _ :: _, [], _, h => by simp [charsLE] at h
  | x :: xs, y :: ys, z :: zs, h1, h2 => by
    simp only [charsLE] at h1 h2 ⊢
    by_cases e1 : x.toNat = y.toNat <;> by_cases e2 : y.toNat = z.toNat
    · rw [if_pos e1] at h1
      rw [if_pos e2] at h2
      rw [if_pos (e1.trans e2)]
      exact charsLE_trans xs ys zs h1 h2
    · rw [if_pos e1] at h1
      rw [if_neg e2] at h2
      have hyz := of_decide_eq_true h2
      rw [if_neg (by omega)]
      exact decide_eq_true (by omega)
    · rw [if_neg e1] at h1
      rw [if_pos e2] at h2
      have hxy := of_decide_eq_true h1
      rw [if_neg (by omega)]
      exact decide_eq_true (by omega)
    · rw [if_neg e1] at h1
      rw [if_neg e2] at h2
      have hxy := of_decide_eq_true h1
      have hyz := of_decide_eq_true h2
      rw [if_neg (by omega)]
      exact decide_eq_true (by omega)

theorem strLE_total (a b : String) : strLE a b = true ∨ strLE b a = true :=
  charsLE_total a.data b.data

theorem strLE_trans {a b c : String} (h1 : strLE a b = true) (h2 : strLE b c = true) :
    strLE a c = true :=
  charsLE_trans a.data b.data c.data h1 h2

theorem optDateLE_refl : ∀ d, optDateLE d d = true
  | none => rfl
  | some a => decide_eq_true (Nat.le_refl a)

theorem optDateLE_total : ∀ a b, optDateLE a b = true ∨ optDateLE b a = true
  | none, none => Or.inl rfl
  | none, some _ => Or.inr rfl
  | some _, none => Or.inl rfl
  | some a, some b => by
    rcases Nat.le_total a b with h | h
    · exact Or.inl (decide_eq_true h)
    · exact Or.inr (decide_eq_true h)

theorem optDateLE_trans :
    ∀ {a b c}, optDateLE a b = true → optDateLE b c = true → optDateLE a c = true
  | none, none, _, _, h2 => h2
  | none, some _, _, h1, _ => by simp [optDateLE] at h1
  | some _, none, none, _, _ => rfl
  | some _, none, some _, _, h2 => by simp [optDateLE] at h2
  | some _, some _, none, _, _ => rfl
  | some _, some _, some _, h1, h2 =>
    decide_eq_true (Nat.le_trans (of_decide_eq_true h1) (of_decide_eq_true h2))

theorem optDateLE_antisymm :
    ∀ {a b : Option Nat}, a ≠ b → optDateLE a b = true → optDateLE b a = true → False
  | none, none, h, _, _ => h rfl
  | none, some _, _, h1, _ => by simp [optDateLE] at h1
  | some _, none, _, _, h2 => by simp [optDateLE] at h2
  | some a, some b, h, h1, h2 =>
    h (by rw [Nat.le_antisymm (of_decide_eq_true h1) (of_decide_eq_true h2)])

theorem recLE_total (a b : Rec) : recLE a b = true ∨ recLE b a = true := by
  unfold recLE
  by_cases h : a.data = b.data
  · rw [if_pos h, if_pos h.symm]
    exact strLE_total a.chassi b.chassi
  · rw [if_neg h, if_neg (fun hh => h hh.symm)]
    exact optDateLE_total a.data b.data

theorem recLE_trans {a b c : Rec} (hab : recLE a b = true) (hbc : recLE b c = true) :
    recLE a c = true := by
  unfold recLE at *
  by_cases h1 : a.data = b.data <;> by_cases h2 : b.data = c.data
  · rw [if_pos h1] at hab
    rw [if_pos h2] at hbc
    rw [if_pos (h1.trans h2)]
    exact strLE_trans hab hbc
  · rw [if_neg h2] at hbc
    rw [if_neg (fun hh => h2 (h1.symm.trans hh)), h1]
    exact hbc
  · rw [if_neg h1] at hab
    rw [if_neg (fun hh => h1 (hh.trans h2.symm)), ← h2]
    exact hab
  · rw [if_neg h1] at hab
    rw [if_neg h2] at hbc
    by_cases hac : a.data = c.data
    · exact absurd (hac ▸ hbc) (fun hba => optDateLE_antisymm h1 hab hba)
    · rw [if_neg hac]
      exact optDateLE_trans hab hbc

theorem recLE_date {a b : Rec} (h : recLE a b = true) :
    optDateLE a.data b.data = true := by
  unfold recLE at h
  by_cases hd : a.data = b.data
  · rw [hd]
    exact optDateLE_refl b.data
  · rwa [if_neg hd] at h

theorem mem_ordInsert (le : α → α → Bool) (a x : α) :
    ∀ l : List α, x ∈ ordInsert le a l ↔ x = a ∨ x ∈ l
  | [] => by simp [ordInsert]
  | b :: l => by
    simp only [ordInsert]
    by_cases hab : le a b = true
    · rw [if_pos hab]
      simp [List.mem_cons]
    · rw [if_neg hab]
      simp only [List.mem_cons, mem_ordInsert le a x l]
      tauto

theorem pairwise_ordInsert (le : α → α → Bool)
    (htot : ∀ a b, le a b = true ∨ le b a = true)
    (htr : ∀ {a b c}, le a b = true → le b c = true → le a c = true) (a : α) :
    ∀ l : List α, l.Pairwise (fun x y => le x y = true) →
      (ordInsert le a l).Pairwise (fun x y => le x y = true)
  | [], _ => by simp [ordInsert]
  | b :: l, hp => by
    rcases List.pairwise_cons.1 hp with ⟨hb, hl⟩
    simp only [ordInsert]
    by_cases hab : le a b = true
    · rw [if_pos hab]
      refine List.pairwise_cons.2 ⟨?_, hp⟩
      intro x hx
      rcases List.mem_cons.1 hx with rfl | hx
      · exact hab
      · exact htr hab (hb x hx)
    · rw [if_neg hab]
      refine List.pairwise_cons.2 ⟨?_, pairwise_ordInsert le htot htr a l hl⟩
      intro x hx
      rcases (mem_ordInsert le a x l).1 hx with rfl | hx
      · rcases htot x b with h | h
        · exact absurd h hab
        · exact h
      · exact hb x hx

theorem pairwise_sortBy (le : α → α → Bool)
    (htot : ∀ a b, le a b = true ∨ le b a = true)
    (htr : ∀ {a b c}, le a b = true → le b c = true → le a c = true) :
    ∀ l : List α, (sortBy le l).Pairwise (fun x y => le x y = true)
  | [] => List.Pairwise.nil
  | a :: l => pairwise_ordInsert le htot htr a _ (pairwise_sortBy le htot htr l)

theorem mem_sortBy (le : α → α → Bool) (x : α) :
    ∀ l : List α, x ∈ sortBy le l ↔ x ∈ l
  | [] => Iff.rfl
  | a :: l => by
    show x ∈ ordInsert le a (sortBy le l) ↔ _
    rw [mem_ordInsert le a x (sortBy le l), mem_sortBy le x l, List.mem_cons]

theorem ordInsert_append_right (le : α → α → Bool) (a : α) :
    ∀ (l₁ l₂ : List α), (∀ b ∈ l₂, le a b = true) →
      ordInsert le a (l₁ ++ l₂) = ordInsert le a l₁ ++ l₂
  | [], l₂, h => by
    cases l₂ with
    | nil => rfl
    | cons b bs => simp [ordInsert, h b (List.mem_cons_self b bs)]
  | b :: l₁, l₂, h => by
    simp only [List.cons_append, ordInsert, List.append_eq]
    by_cases hab : le a b = true
    · rw [if_pos hab, if_pos hab]
      rfl
    · rw [if_neg hab, if_neg hab, ordInsert_append_right le a l₁ l₂ h]
      rfl

theorem ordInsert_append_left (le : α → α → Bool) (a : α) :
    ∀ (l₁ l₂ : List α), (∀ b ∈ l₁, le a b = false) →
      ordInsert le a (l₁ ++ l₂) = l₁ ++ ordInsert le a l₂
  | [], _, _ => rfl
  | b :: l₁, l₂, h => by
    simp only [List.cons_append, ordInsert, List.append_eq]
    rw [if_neg (by simp [h b (List.mem_cons_self b l₁)]),
      ordInsert_append_left le a l₁ l₂ (fun c hc => h c (List.mem_cons_of_mem b hc))]

theorem recLE_valid_invalid {a b : Rec} (ha : isValid a = true) (hb : isValid b = false) :
    recLE a b = true := by
  unfold isValid at ha hb
  cases hda : a.data with
  | none => simp [hda] at ha
  | some x =>
    cases hdb : b.data with
    | none =>
      unfold recLE
      rw [hda, hdb, if_neg (by simp)]
      rfl
    | some y => simp [hdb] at hb

theorem recLE_invalid_valid {a b : Rec} (ha : isValid a = false) (hb : isValid b = true) :
    recLE a b = false := by
  unfold isValid at ha hb
  cases hda : a.data with
  | some x => simp [hda] at ha
  | none =>
    cases hdb : b.data with
    | some y =>
      unfold recLE
      rw [hda, hdb, if_neg (by simp)]
      rfl
    | none => simp [hdb] at hb

theorem sortBy_recLE_split :
    ∀ l : List Rec,
      sortBy recLE l =
        sortBy recLE (l.filter isValid) ++ sortBy recLE (l.filter (fun r => !(isValid r)))
  | [] => rfl
  | a :: l => by
    have IH := sortBy_recLE_split l
    show ordInsert recLE a (sortBy recLE l) = _
    rw [IH]
    cases ha : isValid a with
    | true =>
      rw [ordInsert_append_right recLE a _ _ ?later]
      case later =>
        intro b hb
        have hbmem := (mem_sortBy recLE b _).1 hb
        have hbinv := List.of_mem_filter hbmem
        exact recLE_valid_invalid ha (by simpa using hbinv)
      have h1 : (a :: l).filter isValid = a :: l.filter isValid := by
        simp [List.filter_cons, ha]
      have h2 : (a :: l).filter (fun r => !(isValid r)) = l.filter (fun r => !(isValid r)) := by
        simp [List.filter_cons, ha]
      rw [h1, h2]
      rfl
    | false =>
      rw [ordInsert_append_left recLE a _ _ ?later]
      case later =>
        intro b hb
        have hbmem := (mem_sortBy recLE b _).1 hb
        have hbval := List.of_mem_filter hbmem
        exact recLE_invalid_valid ha hbval
      have h1 : (a :: l).filter isValid = l.filter isValid := by
        simp [List.filter_cons, ha]
      have h2 : (a :: l).filter (fun r => !(isValid r)) =
          a :: l.filter (fun r => !(isValid r)) := by
        simp [List.filter_cons, ha]
      rw [h1, h2]
      rfl

theorem cumcountFrom_fst :
    ∀ (cnt : String → Nat) (l : List Rec), (cumcountFrom cnt l).map Prod.fst = l
  | _, [] => rfl
  | cnt, r :: l => by
    simp only [cumcountFrom, List.map_cons]
    rw [cumcountFrom_fst (bumpCnt cnt r.chassi) l]

theorem cumcountFrom_append :
    ∀ (cnt : String → Nat) (l₁ l₂ : List Rec),
      cumcountFrom cnt (l₁ ++ l₂) =
        cumcountFrom cnt l₁ ++ cumcountFrom (postCnt cnt l₁) l₂
  | _, [], _ => rfl
  | cnt, r :: l₁, l₂ => by
    simp only [List.cons_append, cumcountFrom, postCnt, List.append_eq]
    rw [cumcountFrom_append (bumpCnt cnt r.chassi) l₁ l₂]

theorem natRange_length : ∀ (s n : Nat), (natRange s n).length = n
  | _, 0 => rfl
  | s, n + 1 => by simp [natRange, natRange_length (s + 1) n]

theorem zip_map_fst :
    ∀ (l₁ : List α) (l₂ : List β), l₁.length = l₂.length →
      (l₁.zip l₂).map Prod.fst = l₁
  | [], [], _ => rfl
  | [], _ :: _, h => by simp at h
  | _ :: _, [], h => by simp at h
  | a :: l₁, b :: l₂, h => by
    simp only [List.zip_cons_cons, List.map_cons]
    rw [zip_map_fst l₁ l₂ (by simpa using h)]

theorem zip_map_snd :
    ∀ (l₁ : List α) (l₂ : List β), l₁.length = l₂.length →
      (l₁.zip l₂).map Prod.snd = l₂
  | [], [], _ => rfl
  | [], _ :: _, h => by simp at h
  | _ :: _, [], h => by simp at h
  | a :: l₁, b :: l₂, h => by
    simp only [List.zip_cons_cons, List.map_cons]
    rw [zip_map_snd l₁ l₂ (by simpa using h)]

theorem cumcountFrom_filter :
    ∀ (cnt : String → Nat) (l : List Rec) (c : String),
      (cumcountFrom cnt l).filter (fun p => decide (p.1.chassi = c)) =
        (l.filter (fun r => decide (r.chassi = c))).zip
          (natRange (cnt c) ((l.filter (fun r => decide (r.chassi = c))).length))
  | _, [], _ => rfl
  | cnt, r :: l, c => by
    have IH := cumcountFrom_filter (bumpCnt cnt r.chassi) l c
    by_cases hrc : r.chassi = c
    · have hb : bumpCnt cnt r.chassi c = cnt c + 1 := by
        simp [bumpCnt, hrc.symm]
      simp only [cumcountFrom, List.filter_cons]
      rw [if_pos (by simp [hrc]), if_pos (by simp [hrc])]
      simp only [List.length_cons, natRange, List.zip_cons_cons]
      congr 1
      · rw [hrc]
      · rw [IH, hb]
    · have hb : bumpCnt cnt r.chassi c = cnt c := by
        simp only [bumpCnt]
        rw [if_neg (fun hh => hrc hh.symm)]
      simp only [cumcountFrom, List.filter_cons]
      rw [if_neg (by simp [hrc]), if_neg (by simp [hrc]), IH, hb]

theorem filter_map_flagPair (l : List (Rec × Nat)) (c : String) :
    (l.map flagPair).filter (fun q => decide (q.1.chassi = c)) =
      (l.filter (fun p => decide (p.1.chassi = c))).map flagPair := by
  induction l with
  | nil => rfl
  | cons p l IH =>
    simp only [List.map_cons, List.filter_cons]
    by_cases h : p.1.chassi = c
    · rw [if_pos (by simp [flagPair, h]), if_pos (by simp [h]), IH]
      rfl
    · rw [if_neg (by simp [flagPair, h]), if_neg (by simp [h]), IH]

theorem classify_group (rows : List Rec) (c : String) :
    (classify rows).filter (fun p => decide (p.1.chassi = c)) =
      (((sortBy recLE (rows.map normalizeRec)).filter
          (fun r => decide (r.chassi = c))).zip
        (natRange 0 (((sortBy recLE (rows.map normalizeRec)).filter
          (fun r => decide (r.chassi = c))).length))).map flagPair := by
  unfold classify
  rw [filter_map_flagPair, cumcountFrom_filter]

theorem classify_group_length (rows : List Rec) (c : String) :
    ((classify rows).filter (fun p => decide (p.1.chassi = c))).length =
      ((sortBy recLE (rows.map normalizeRec)).filter
        (fun r => decide (r.chassi = c))).length := by
  rw [classify_group, List.length_map, List.length_zip, natRange_length, Nat.min_self]

theorem classify_group_fst (rows : List Rec) (c : String) :
    ((classify rows).filter (fun p => decide (p.1.chassi = c))).map Prod.fst =
      (sortBy recLE (rows.map normalizeRec)).filter (fun r => decide (r.chassi = c)) := by
  rw [classify_group, List.map_map]
  have h : Prod.fst ∘ flagPair = (Prod.fst : Rec × Nat → Rec) := funext fun p => rfl
  rw [h, zip_map_fst _ _ (by rw [natRange_length])]

theorem classify_group_snd (rows : List Rec) (c : String) :
    ((classify rows).filter (fun p => decide (p.1.chassi = c))).map Prod.snd =
      (natRange 0
        (((classify rows).filter (fun p => decide (p.1.chassi = c))).length)).map
        (fun i => decide (1 ≤ i)) := by
  rw [classify_group_length, classify_group, List.map_map]
  have h : Prod.snd ∘ flagPair = (fun i => decide (1 ≤ i)) ∘ (Prod.snd : Rec × Nat → Nat) :=
    funext fun p => rfl
  rw [h, ← List.map_map, zip_map_snd _ _ (by rw [natRange_length])]

theorem natRange_map_ge_one :
    ∀ (n s : Nat), 1 ≤ s →
      (natRange s n).map (fun i => decide (1 ≤ i)) = List.replicate n true
  | 0, _, _ => rfl
  | n + 1, s, hs => by
    simp only [natRange, List.map_cons, List.replicate_succ]
    rw [natRange_map_ge_one n (s + 1) (by omega), decide_eq_true hs]

theorem countP_map_snd (q : Bool → Bool) :
    ∀ g : List (Rec × Bool), g.countP (fun p => q p.2) = (g.map Prod.snd).countP q
  | [] => rfl
  | p :: g => by
    simp only [List.map_cons, List.countP_cons]
    rw [countP_map_snd q g]

theorem countP_replicate (p : α → Bool) (a : α) :
    ∀ n, (List.replicate n a).countP p = if p a then n else 0
  | 0 => by cases h : p a <;> simp [h]
  | n + 1 => by
    simp only [List.replicate_succ, List.countP_cons, countP_replicate p a n]
    cases h : p a <;> simp [h]

theorem countP_add_countP_not (p : α → Bool) :
    ∀ l : List α, l.countP p + l.countP (fun a => !(p a)) = l.length
  | [] => rfl
  | a :: l => by
    simp only [List.countP_cons, List.length_cons]
    have := countP_add_countP_not p l
    cases h : p a <;> simp [h] <;> omega

theorem flags_count :
    ∀ k : Nat,
      ((natRange 0 k).map (fun i => decide (1 ≤ i))).countP (fun b => !b) = min k 1 ∧
      ((natRange 0 k).map (fun i => decide (1 ≤ i))).countP (fun b => b) = k - 1
  | 0 => ⟨rfl, rfl⟩
  | k + 1 => by
    have hrep : (natRange 1 k).map (fun i => decide (1 ≤ i)) = List.replicate k true :=
      natRange_map_ge_one k 1 (le_refl 1)
    simp only [natRange, List.map_cons, hrep, List.countP_cons, countP_replicate]
    constructor
    · simp [Nat.min_def]
    · simp

theorem classify_filter_valid (rows : List Rec) :
    (classify rows).filter (fun p => isValid p.1) =
      classify (rows.filter (fun r => isValid r)) := by
  unfold classify
  rw [sortBy_recLE_split (rows.map normalizeRec), cumcountFrom_append,
    List.map_append, List.filter_append]
  have hA : ((cumcountFrom (fun _ => 0)
        (sortBy recLE ((rows.map normalizeRec).filter isValid))).map flagPair).filter
          (fun p => isValid p.1) =
      (cumcountFrom (fun _ => 0)
        (sortBy recLE ((rows.map normalizeRec).filter isValid))).map flagPair := by
    rw [List.filter_eq_self]
    intro a ha
    rcases List.mem_map.1 ha with ⟨pr, hpr, rfl⟩
    have h1 : pr.1 ∈ (cumcountFrom (fun _ => 0)
        (sortBy recLE ((rows.map normalizeRec).filter isValid))).map Prod.fst :=
      List.mem_map_of_mem Prod.fst hpr
    rw [cumcountFrom_fst] at h1
    exact List.of_mem_filter ((mem_sortBy recLE pr.1 _).1 h1)
  have hB : ((cumcountFrom (postCnt (fun _ => 0)
        (sortBy recLE ((rows.map normalizeRec).filter isValid)))
        (sortBy recLE ((rows.map normalizeRec).filter
          (fun r => !(isValid r))))).map flagPair).filter
          (fun p => isValid p.1) = [] := by
    rw [List.filter_eq_nil_iff]
    intro a ha
    rcases List.mem_map.1 ha with ⟨pr, hpr, rfl⟩
    have h1 : pr.1 ∈ (cumcountFrom (postCnt (fun _ => 0)
        (sortBy recLE ((rows.map normalizeRec).filter isValid)))
        (sortBy recLE ((rows.map normalizeRec).filter
          (fun r => !(isValid r))))).map Prod.fst :=
      List.mem_map_of_mem Prod.fst hpr
    rw [cumcountFrom_fst] at h1
    have h2 := List.of_mem_filter ((mem_sortBy recLE pr.1 _).1 h1)
    simp only [Bool.not_eq_true'] at h2
    simp [flagPair, h2]
  rw [hA, hB, List.append_nil]
  have hmap : (rows.map normalizeRec).filter (fun r => isValid r) =
      (rows.filter (fun r => isValid r)).map normalizeRec := by
    rw [List.filter_map]
    rfl
  rw [show ((rows.map normalizeRec).filter isValid) =
      ((rows.map normalizeRec).filter (fun r => isValid r)) from rfl, hmap]

/-- C1: the classifier flags a record as repeat iff its cumulative index
within its chassis group (after the stable sort by date then chassis) is
at least 1: every chassis group of the classified output has exactly
`min size 1` originals and `size - 1` repeats, the original record is
earliest by date within its group, scenario A (chassis `ABC123` on
2024-01-05, 2024-01-03, 2024-01-07 at one unit) yields the flags
`[false, true, true]` in chronological order, and a same-date tie keeps
input order (the first-input record is the original). -/
theorem c1_repeat_classifier (rows : List Rec) (c : String) :
    ((classify rows).filter (fun p => decide (p.1.chassi = c))).countP (fun p => !p.2) =
      min ((classify rows).filter (fun p => decide (p.1.chassi = c))).length 1 ∧
    ((classify rows).filter (fun p => decide (p.1.chassi = c))).countP (fun p => p.2) =
      ((classify rows).filter (fun p => decide (p.1.chassi = c))).length - 1 ∧
    (∀ p ∈ (classify rows).filter (fun p => decide (p.1.chassi = c)), p.2 = false →
      ∀ q ∈ (classify rows).filter (fun p => decide (p.1.chassi = c)),
        optDateLE p.1.data q.1.data = true) ∧
    (classify scenA).map (fun p => (p.1.data, p.2)) =
      [(some 20240103, false), (some 20240105, true), (some 20240107, true)] ∧
    (classify scenTie).map (fun p => (p.1.unidade, p.2)) = [("UA", false), ("UB", true)] := by
  have hsnd := classify_group_snd rows c
  refine ⟨?_, ?_, ?_, by decide, by decide⟩
  · rw [countP_map_snd (fun b => !b), hsnd]
    exact (flags_count _).1
  · rw [countP_map_snd (fun b => b), hsnd]
    exact (flags_count _).2
  · have hfst := classify_group_fst rows c
    have hpair : ((sortBy recLE (rows.map normalizeRec)).filter
        (fun r => decide (r.chassi = c))).Pairwise (fun x y => recLE x y = true) :=
      (pairwise_sortBy recLE recLE_total (fun h1 h2 => recLE_trans h1 h2)
        (rows.map normalizeRec)).sublist (List.filter_sublist _)
    intro p hp hpf q hq
    rcases hgc : (classify rows).filter (fun p => decide (p.1.chassi = c)) with _ | ⟨p₀, rest⟩
    · rw [hgc] at hp
      exact absurd hp (List.not_mem_nil p)
    · rw [hgc] at hp hq hsnd hfst
      rw [List.length_cons] at hsnd
      simp only [natRange, List.map_cons] at hsnd
      rw [natRange_map_ge_one rest.length 1 (le_refl 1)] at hsnd
      injection hsnd with h0 hrest
      have hall : ∀ x ∈ rest, x.2 = true := by
        intro x hx
        have hx2 : x.2 ∈ rest.map Prod.snd := List.mem_map_of_mem Prod.snd hx
        rw [hrest] at hx2
        exact List.eq_of_mem_replicate hx2
      have hpp : p = p₀ := by
        rcases List.mem_cons.1 hp with rfl | hp'
        · rfl
        · rw [hall p hp'] at hpf
          cases hpf
      subst hpp
      rcases List.mem_cons.1 hq with rfl | hq'
      · exact optDateLE_refl _
      · rw [← hfst] at hpair
        simp only [List.map_cons] at hpair
        have hrel := (List.pairwise_cons.1 hpair).1
        exact recLE_date (hrel q.1 (List.mem_map_of_mem Prod.fst hq'))

/-- C1 witness: the theorem applied to scenario A and chassis `ABC123`:
the original record (2024-01-03) is dated no later than the 2024-01-05
record of the same chassis. -/
theorem c1_repeat_classifier_witness :
    optDateLE (some 20240103) (some 20240105) = true := by
  have h := (c1_repeat_classifier scenA "ABC123").2.2.1
  exact h ⟨⟨"U1", some 20240103, "ABC123", "V"⟩, false⟩ (by decide) rfl
    ⟨⟨"U1", some 20240105, "ABC123", "V"⟩, true⟩ (by decide)

/-- C2 counterexample: the code groups by chassis alone, so when chassis
`CHS77` appears under units `U1` (2024-01-01) and `U2` (2024-01-02), the
only record of the (unit `U2`, chassis `CHS77`) group - position 0 of
its group - is flagged repeat, contradicting the claimed (unit, chassis)
scope key, which would make it an original. -/
theorem c2_scope_key_counterexample :
    ((classify scenTwoUnits).filter
      (fun p => decide (p.1.unidade = "U2") && decide (p.1.chassi = "CHS77"))).map
        (fun p => p.2) = [true] := by decide

/-- C2 amended: the classification scope key is the chassis alone (after
upper-strip normalization): within every chassis group, ordering by date
with input order as the stable tie-break, a record is flagged repeat iff
its position is at least 1; the same chassis under two different units in
the same month therefore yields exactly one original overall, not one per
unit. -/
theorem c2_scope_key_amended (rows : List Rec) (c : String) :
    ((classify rows).filter (fun p => decide (p.1.chassi = c))).map Prod.snd =
      (natRange 0
        (((classify rows).filter (fun p => decide (p.1.chassi = c))).length)).map
        (fun i => decide (1 ≤ i)) ∧
    (classify scenTwoUnits).map (fun p => (p.1.unidade, p.2)) =
      [("U1", false), ("U2", true)] ∧
    ((classify scenTwoUnits).filter (fun p => decide (p.1.chassi = "CHS77"))).countP
      (fun p => !p.2) = 1 :=
  ⟨classify_group_snd rows c, by decide, by decide⟩

/-- C3 counterexample: banned-unit rows are dropped only after
classification (line 206 runs after lines 200-202), so removing the
banned-unit record of chassis `CHX9` flips the retained record's flag
from repeat to original; and a record with an unparseable date is not
excluded before classification - it is classified (flag assigned) and
retained by `read_one_sheet`. -/
theorem c3_upstream_exclusion_counterexample :
    (readOneSheet scenBanPair).map (fun p => p.2) = [true] ∧
    (readOneSheet [⟨"U1", some 20240102, "CHX9", "V"⟩]).map (fun p => p.2) = [false] ∧
    readOneSheet [scenNoDate] = [(scenNoDate, false)] := by decide

/-- C3 amended: unparseable-date records are classified too, but they
sort after every valid-date record, so the classified valid-date records
equal those obtained from the valid-date rows alone (removing an
unparseable-date record never changes a valid-date record's flag);
banned-unit sentinel rows, however, are dropped only after
classification and do influence the flags of retained records sharing
their chassis. -/
theorem c3_upstream_exclusion_amended :
    (∀ rows : List Rec,
      (classify rows).filter (fun p => isValid p.1) =
        classify (rows.filter (fun r => isValid r))) ∧
    (readOneSheet scenBanPair2).map (fun p => p.2) = [true] ∧
    (readOneSheet [⟨"U9", some 20240202, "CHY4", "V"⟩]).map (fun p => p.2) = [false] :=
  ⟨classify_filter_valid, by decide, by decide⟩

theorem getLast?_cons_ne_none (a : α) : ∀ t : List α, (a :: t).getLast? ≠ none
  | [] => by simp
  | b :: t => by
    rw [List.getLast?_cons_cons]
    exact getLast?_cons_ne_none b t

theorem getLast?_cons_of_ne_nil (a : α) {t : List α} (h : t ≠ []) :
    (a :: t).getLast? = t.getLast? := by
  cases t with
  | nil => exact absurd rfl h
  | cons b t => exact List.getLast?_cons_cons

theorem specStreak_le_length : ∀ l : List HistRow, specStreak l ≤ l.length
  | [] => le_refl 0
  | r :: rs => by
    unfold specStreak
    split_ifs
    · exact Nat.zero_le _
    · simpa using specStreak_le_length rs

theorem countBack_spec :
    ∀ l : List HistRow,
      countBack l = (specStreak l, ((l.take (specStreak l)).getLast?).map HistRow.ym)
  | [] => rfl
  | r :: rs => by
    by_cases hmeta : r.metaMensal ≤ 0
    · have hs : specStreak (r :: rs) = 0 := by
        unfold specStreak
        rw [if_pos (Or.inl hmeta)]
      unfold countBack
      rw [if_pos hmeta, hs]
      rfl
    · by_cases hmet : r.metaMensal ≤ r.liquido
      · have hstat : statusRow r.liquido r.metaMensal = "BATEU" := by
          unfold statusRow
          rw [if_neg hmeta, if_pos hmet]
        have hs : specStreak (r :: rs) = 0 := by
          unfold specStreak
          rw [if_pos (Or.inr hmet)]
        unfold countBack
        rw [if_neg hmeta, hstat, if_pos (by decide), hs]
        rfl
      · have hstat : statusRow r.liquido r.metaMensal = "NÃO BATEU" := by
          unfold statusRow
          rw [if_neg hmeta, if_neg hmet]
        have hs : specStreak (r :: rs) = specStreak rs + 1 := by
          show (if r.metaMensal ≤ 0 ∨ r.metaMensal ≤ r.liquido then 0
            else specStreak rs + 1) = specStreak rs + 1
          rw [if_neg (by tauto)]
        have IH := countBack_spec rs
        unfold countBack
        rw [if_neg hmeta, hstat, if_neg (by simp), IH, hs]
        simp only [List.take_succ_cons]
        cases hn : specStreak rs with
        | zero => simp
        | succ m =>
          cases rs with
          | nil => simp [specStreak] at hn
          | cons r2 rs2 =>
            simp only [List.take_succ_cons]
            rw [getLast?_cons_of_ne_nil r (by simp)]
            cases hlast : (r2 :: List.take m rs2).getLast? with
            | none => exact absurd hlast (getLast?_cons_ne_none r2 (List.take m rs2))
            | some z => simp [hlast]

/-- C4: the streak reported for an inspector below a positive quota in
the reference month is computed by walking the monthly history in
reverse chronological order from the reference month inclusive, stopping
without counting at a month without positive quota, stopping at a met
month, counting otherwise until history runs out; the reported start is
the earliest counted month.  Formally: the backward walk returns exactly
the specification streak count, paired with the month of the last
counted row (the earliest month of the run), and on scenario D (quota of
50 missed in 2024-03, 2024-04, 2024-05, met in 2024-02, reference
2024-05, scrambled input order) it returns streak 3 starting at
`2024-03`, labelled `03/2024`. -/
theorem c4_streak_walk :
    (∀ l : List HistRow,
      countBack l = (specStreak l, ((l.take (specStreak l)).getLast?).map HistRow.ym)) ∧
    consecutiveWithoutMeta scenD "2024-05" = (3, some "2024-03") ∧
    ymToLabel "2024-03" = "03/2024" :=
  ⟨countBack_spec, by decide, by decide⟩

/-- C5: for every reconciliation row, net = gross - repeats (and equals
the number of records flagged original), shortfall is
`max(quota - net, 0)` and hence non-negative, and days remaining is
`max(working days - days elapsed, 0)`. -/
theorem c5_reconciliation_identities :
    (∀ (out : List (Rec × Bool)) (v : String),
      aggLiquido out v =
        ((out.filter (fun p => decide (p.1.vistoriador = v))).countP
          (fun p => !p.2) : Int)) ∧
    (∀ g : GrpRow,
      LIQUIDO g = (g.vistorias : Int) - (g.revistorias : Int) ∧
      FALTANTE_MES g = max (g.metaMensal - LIQUIDO g) 0 ∧
      0 ≤ FALTANTE_MES g ∧
      DIAS_RESTANTES g = max (g.diasUteis - (g.diasPassados : Int)) 0 ∧
      0 ≤ DIAS_RESTANTES g) := by
  constructor
  · intro out v
    unfold aggLiquido aggVistorias aggRevistorias
    have h := countP_add_countP_not (fun p : Rec × Bool => p.2)
      (out.filter (fun p => decide (p.1.vistoriador = v)))
    omega
  · intro g
    exact ⟨rfl, rfl, le_max_right _ _, rfl, le_max_right _ _⟩

/-- C6 counterexample: with no quota row (`DIAS_UTEIS = 0`) but three
elapsed workdays and net 6, the average daily net is 2, not 0: the
average depends on `DIAS_PASSADOS`, not on `DIAS_UTEIS`. -/
theorem c6_division_guards_counterexample :
    grpNoWd.diasUteis = 0 ∧ MEDIA_DIA_ATUAL grpNoWd = 2 ∧
      MEDIA_DIA_ATUAL grpNoWd ≠ 0 := by
  have h : MEDIA_DIA_ATUAL grpNoWd = 2 := by
    norm_num [MEDIA_DIA_ATUAL, LIQUIDO, grpNoWd]
  refine ⟨rfl, h, ?_⟩
  rw [h]
  norm_num

/-- C6 amended: every division of the reconciliation is guarded (each
rate is 0 when its own denominator is not positive); when working days
is 0, daily quota and required pace are 0 and no division occurs, while
average daily net is 0 only when days elapsed is also 0 (it is
independent of working days). -/
theorem c6_division_guards_amended (g : GrpRow) :
    (¬ 0 < g.diasUteis → META_DIA g = 0) ∧
    (¬ 0 < DIAS_RESTANTES g → NECESSIDADE_DIA g = 0) ∧
    (¬ 0 < g.diasPassados → MEDIA_DIA_ATUAL g = 0) ∧
    (g.diasUteis = 0 → META_DIA g = 0 ∧ NECESSIDADE_DIA g = 0) ∧
    (g.diasUteis = 0 → g.diasPassados = 0 → MEDIA_DIA_ATUAL g = 0) := by
  refine ⟨?_, ?_, ?_, ?_, ?_⟩
  · intro hh
    unfold META_DIA
    rw [if_neg hh]
  · intro hh
    unfold NECESSIDADE_DIA
    rw [if_neg hh]
  · intro hh
    unfold MEDIA_DIA_ATUAL
    rw [if_neg hh]
  · intro hz
    constructor
    · unfold META_DIA
      rw [if_neg (by omega)]
    · unfold NECESSIDADE_DIA
      rw [if_neg ?hc]
      case hc =>
        unfold DIAS_RESTANTES
        rw [hz]
        have hle : (0 : Int) - (g.diasPassados : Int) ≤ 0 := by omega
        rw [max_eq_right hle]
        omega
  · intro _ hp
    unfold MEDIA_DIA_ATUAL
    rw [if_neg (by omega)]

/-- C6 amended witness: the amended theorem applied to the concrete row
with `DIAS_UTEIS = 0`. -/
theorem c6_division_guards_amended_witness :
    META_DIA grpNoWd = 0 ∧ NECESSIDADE_DIA grpNoWd = 0 :=
  (c6_division_guards_amended grpNoWd).2.2.2.1 rfl

/-- C7: when the monthly quota is not positive - in particular for an
inspector absent from the quota table, who receives quota 0 from the
left merge default - the trend is the `none` sentinel (never `some`
value, so never 0 percent nor 100 percent) and renders as the em dash. -/
theorem c7_trend_undefined :
    (∀ g : GrpRow, g.metaMensal ≤ 0 →
      TENDENCIA g = none ∧ chip_tend (TENDENCIA g) = "—" ∧
      ∀ q : ℚ, TENDENCIA g ≠ some q) ∧
    (∀ (gb : GrpBase) (metas : List MetaRef), metasFor gb metas = [] →
      (mergeLeft gb metas).map (fun r => r.metaMensal) = [0] ∧
      ∀ r ∈ mergeLeft gb metas, TENDENCIA r = none) := by
  constructor
  · intro g h
    have ht : TENDENCIA g = none := by
      unfold TENDENCIA
      rw [if_neg (by omega)]
    refine ⟨ht, by rw [ht]; rfl, fun q hq => by rw [ht] at hq; cases hq⟩
  · intro gb metas h
    unfold mergeLeft
    rw [h]
    refine ⟨rfl, ?_⟩
    intro r hr
    rcases List.mem_singleton.1 hr with rfl
    simp [TENDENCIA]

/-- C7 witness: the theorem applied to the zero-quota row `grpNoWd` and
to an aggregate whose inspector matches no quota row. -/
theorem c7_trend_undefined_witness :
    TENDENCIA grpNoWd = none ∧ chip_tend (TENDENCIA grpNoWd) = "—" ∧
    (mergeLeft gbNoMeta metasDup).map (fun r => r.metaMensal) = [0] :=
  ⟨(c7_trend_undefined.1 grpNoWd (by decide)).1,
    (c7_trend_undefined.1 grpNoWd (by decide)).2.1,
    (c7_trend_undefined.2 gbNoMeta metasDup (by decide)).1⟩

theorem floor_le_roundHalfEven (q : ℚ) : ⌊q⌋ ≤ roundHalfEven q := by
  unfold roundHalfEven
  split_ifs <;> omega

theorem roundHalfEven_le_floor_add_one (q : ℚ) : roundHalfEven q ≤ ⌊q⌋ + 1 := by
  unfold roundHalfEven
  split_ifs <;> omega

theorem roundHalfEven_mono {x y : ℚ} (h : x ≤ y) :
    roundHalfEven x ≤ roundHalfEven y := by
  rcases lt_or_eq_of_le (Int.floor_le_floor h) with hf | hf
  · calc roundHalfEven x ≤ ⌊x⌋ + 1 := roundHalfEven_le_floor_add_one x
      _ ≤ ⌊y⌋ := by omega
      _ ≤ roundHalfEven y := floor_le_roundHalfEven y
  · unfold roundHalfEven
    rw [hf]
    split_ifs <;> first | omega | (exfalso; linarith)

theorem roundHalfEven_intCast (n : Int) : roundHalfEven (n : ℚ) = n := by
  unfold roundHalfEven
  rw [Int.floor_intCast, if_pos (by norm_num)]

/-- C9: holding quota, working days and days elapsed (hence also days
remaining) fixed, a larger net production never increases the shortfall
and never decreases the rounded month-end projection. -/
theorem c9_monotonicity (g h : GrpRow)
    (hm : h.metaMensal = g.metaMensal) (hu : h.diasUteis = g.diasUteis)
    (hp : h.diasPassados = g.diasPassados) (hl : LIQUIDO g ≤ LIQUIDO h) :
    FALTANTE_MES h ≤ FALTANTE_MES g ∧ PROJECAO_MES g ≤ PROJECAO_MES h := by
  have hdr : DIAS_RESTANTES h = DIAS_RESTANTES g := by
    unfold DIAS_RESTANTES
    rw [hu, hp]
  constructor
  · unfold FALTANTE_MES
    rw [hm]
    exact max_le_max (by omega) le_rfl
  · unfold PROJECAO_MES MEDIA_DIA_ATUAL
    rw [hdr, hp]
    apply roundHalfEven_mono
    have hq : (LIQUIDO g : ℚ) ≤ (LIQUIDO h : ℚ) := by exact_mod_cast hl
    by_cases hd : 0 < g.diasPassados
    · rw [if_pos hd, if_pos hd]
      have hdr0 : (0 : ℚ) ≤ (DIAS_RESTANTES g : ℚ) := by
        have h0 : (0 : Int) ≤ DIAS_RESTANTES g := le_max_right _ _
        exact_mod_cast h0
      have hdp : (0 : ℚ) < (g.diasPassados : ℚ) := by exact_mod_cast hd
      have key : ∀ l : ℚ,
          l + l / (g.diasPassados : ℚ) * (DIAS_RESTANTES g : ℚ) =
            l * (1 + (DIAS_RESTANTES g : ℚ) / (g.diasPassados : ℚ)) := by
        intro l
        field_simp
        ring
      rw [key, key]
      have hfac : (0 : ℚ) ≤ 1 + (DIAS_RESTANTES g : ℚ) / (g.diasPassados : ℚ) := by
        have hdiv := div_nonneg hdr0 (le_of_lt hdp)
        linarith
      exact mul_le_mul_of_nonneg_right hq hfac
    · rw [if_neg hd, if_neg hd]
      simp only [zero_mul, add_zero]
      exact hq

/-- C9 witness: the theorem applied to two concrete rows differing only
in net production (5 versus 6). -/
theorem c9_monotonicity_witness :
    FALTANTE_MES grpW2 ≤ FALTANTE_MES grpW1 ∧
      PROJECAO_MES grpW1 ≤ PROJECAO_MES grpW2 :=
  c9_monotonicity grpW1 grpW2 rfl rfl rfl (by decide)

/-- C8 counterexample: the merge is on inspector name only, so an
inspector whose name matches two quota rows (units `U1` and `U2`) gets
two output rows, one per quota row - not a single row chosen by unit
narrowing with first-match-wins. -/
theorem c8_join_counterexample :
    (mergeLeft gbDup metasDup).length = 2 ∧
    (mergeLeft gbDup metasDup).map (fun r => r.metaMensal) = [100, 200] := by decide

/-- C8 amended: the left merge matches on inspector name alone: the
aggregate row is replicated once per matching quota row (a single
defaulted row with quota 0 when none matches), so the number of output
rows for an inspector is `max 1 (number of matching quota rows)`; no
unit narrowing and no first-match-wins selection occurs. -/
theorem c8_join_amended (g : GrpBase) (metas : List MetaRef) :
    (mergeLeft g metas).length = max 1 (metasFor g metas).length ∧
    (metasFor g metas = [] →
      (mergeLeft g metas).map (fun r => r.metaMensal) = [0]) ∧
    (∀ (m : MetaRef) (rest : List MetaRef), metasFor g metas = m :: rest →
      (mergeLeft g metas).map (fun r => (r.unidade, r.metaMensal)) =
        (m :: rest).map (fun x => (x.unidade, x.metaMensal))) := by
  unfold mergeLeft
  cases hm : metasFor g metas with
  | nil =>
    refine ⟨rfl, fun _ => rfl, ?_⟩
    intro m rest hcons
    exact absurd hcons.symm (List.cons_ne_nil m rest)
  | cons m0 rest0 =>
    refine ⟨?_, ?_, ?_⟩
    · rw [List.length_map, List.length_cons]
      exact (max_eq_right (by omega)).symm
    · intro hcontra
      exact absurd hcontra (List.cons_ne_nil m0 rest0)
    · intro m rest hcons
      injection hcons with h1 h2
      subst h1
      subst h2
      rw [List.map_map]
      rfl

/-- C8 amended witness: the amended theorem applied to the duplicated
quota table. -/
theorem c8_join_amended_witness :
    (mergeLeft gbDup metasDup).length = max 1 (metasFor gbDup metasDup).length ∧
    (mergeLeft gbDup metasDup).map (fun r => (r.unidade, r.metaMensal)) =
      [("U1", 100), ("U2", 200)] := by
  have h := c8_join_amended gbDup metasDup
  refine ⟨h.1, ?_⟩
  have h2 := h.2.2 ⟨"A", "U1", "FIXO", 100, 20⟩ [⟨"A", "U2", "FIXO", 200, 20⟩]
    (by decide)
  rw [h2]
  decide

theorem foldl_max_init : ∀ (rs : List MetaRaw) (a : Int),
    a ≤ rs.foldl (fun p y => max p y.metaMensal) a
  | [], a => le_refl a
  | x :: rs, a =>
    le_trans (le_max_left a x.metaMensal) (foldl_max_init rs (max a x.metaMensal))

theorem foldl_max_mem : ∀ (rs : List MetaRaw) (a : Int) (x : MetaRaw), x ∈ rs →
    x.metaMensal ≤ rs.foldl (fun p y => max p y.metaMensal) a
  | y :: rs, a, x, hx => by
    rcases List.mem_cons.1 hx with rfl | hx'
    · exact le_trans (le_max_right a x.metaMensal) (foldl_max_init rs _)
    · exact foldl_max_mem rs (max a y.metaMensal) x hx'

theorem foldl_max_choice : ∀ (rs : List MetaRaw) (a : Int),
    rs.foldl (fun p y => max p y.metaMensal) a = a ∨
      ∃ x ∈ rs, rs.foldl (fun p y => max p y.metaMensal) a = x.metaMensal
  | [], _ => Or.inl rfl
  | x :: rs, a => by
    rcases foldl_max_choice rs (max a x.metaMensal) with h | ⟨y, hy, h⟩
    · rcases max_choice a x.metaMensal with hmx | hmx
      · left
        rw [List.foldl_cons, h, hmx]
      · right
        exact ⟨x, List.mem_cons_self x rs, by rw [List.foldl_cons, h, hmx]⟩
    · right
      exact ⟨y, List.mem_cons_of_mem x hy, by rw [List.foldl_cons, h]⟩

/-- C10 counterexample: for duplicate quota rows of one
`(month, inspector)` whose `TIPO` values are `""` then `"FIXO"`, the
consolidation keeps the empty first value (the `dropna` drops nothing
after `astype(str)`), not the first non-empty value `"FIXO"`; the quota
is the maximum, 200. -/
theorem c10_metas_consolidation_counterexample :
    consolidateFor metasRawDup "2024-05" "A" = some ("", 200) ∧
      ("" : String) ≠ "FIXO" := by decide

/-- C10 amended: the consolidation yields exactly one row per distinct
`(month, inspector)` key; its quota is the maximum `META_MENSAL` over
the duplicate rows (an attained bound), and its type is the `TIPO` of
the first duplicate row in input order, empty strings included. -/
theorem c10_metas_consolidation_amended :
    (∀ rows : List MetaRaw,
      ((consolidate rows).map (fun t => (t.1, t.2.1))).Nodup) ∧
    (∀ (rows : List MetaRaw) (ym v : String) (r : MetaRaw) (rs : List MetaRaw),
      metasGroup rows ym v = r :: rs →
      consolidateFor rows ym v = some (r.tipo, groupMax r rs) ∧
      (∀ x ∈ metasGroup rows ym v, x.metaMensal ≤ groupMax r rs) ∧
      groupMax r rs ∈ (r :: rs).map (fun x => x.metaMensal)) ∧
    (∀ (rows : List MetaRaw) (ym v : String),
      metasGroup rows ym v = [] → consolidateFor rows ym v = none) := by
  refine ⟨?_, ?_, ?_⟩
  · intro rows
    unfold consolidate
    have haux : ∀ ks : List (String × String),
        (ks.filterMap (fun k => (consolidateFor rows k.1 k.2).map
          (fun p => (k.1, k.2, p.1, p.2)))).map (fun t => (t.1, t.2.1)) =
        ks.filter (fun k => (consolidateFor rows k.1 k.2).isSome) := by
      intro ks
      induction ks with
      | nil => rfl
      | cons k ks IH =>
        simp only [List.filterMap_cons, List.filter_cons]
        cases hc : consolidateFor rows k.1 k.2 with
        | none =>
          rw [if_neg (by simp)]
          exact IH
        | some p =>
          rw [if_pos (by simp)]
          have hstep : ((k.1, k.2, p.1, p.2) ::
              ks.filterMap (fun k => (consolidateFor rows k.1 k.2).map
                (fun p => (k.1, k.2, p.1, p.2)))).map (fun t => (t.1, t.2.1)) =
              k :: ks.filter (fun k => (consolidateFor rows k.1 k.2).isSome) := by
            simp only [List.map_cons]
            rw [IH]
          exact hstep
    rw [haux]
    exact (List.nodup_dedup _).filter _
  · intro rows ym v r rs hg
    refine ⟨?_, ?_, ?_⟩
    · unfold consolidateFor
      rw [hg]
    · intro x hx
      rw [hg] at hx
      rcases List.mem_cons.1 hx with rfl | hx'
      · exact foldl_max_init rs x.metaMensal
      · exact foldl_max_mem rs r.metaMensal x hx'
    · unfold groupMax
      rcases foldl_max_choice rs r.metaMensal with h | ⟨y, hy, h⟩
      · rw [h]
        exact List.mem_map_of_mem _ (List.mem_cons_self r rs)
      · rw [h]
        exact List.mem_map_of_mem _ (List.mem_cons_of_mem r hy)
  · intro rows ym v hg
    unfold consolidateFor
    rw [hg]

/-- C10 amended witness: the amended theorem applied to the duplicated
quota rows. -/
theorem c10_metas_consolidation_amended_witness :
    consolidateFor metasRawDup "2024-05" "A" =
      some ("", groupMax ⟨"2024-05", "A", "", 100⟩ [⟨"2024-05", "A", "FIXO", 200⟩]) :=
  (c10_metas_consolidation_amended.2.1 metasRawDup "2024-05" "A"
    ⟨"2024-05", "A", "", 100⟩ [⟨"2024-05", "A", "FIXO", 200⟩] (by decide)).1
